import Mathlib

/-!
Verification of the secret-encryption-and-upload workflow of the
`mpzsql_azinfra` repository (scripts `set_gh_secrets.py` and
`set_cert_secrets.py`, which share the `GitHubSecretsManager` class verbatim).

The network is modelled by explicit outcome values: each HTTP call performed
by the scripts is represented by the response (status code plus the JSON body
fields the code reads) or by a transport failure (a raised
`requests.exceptions.RequestException` with no response).  The `requests`
library's `raise_for_status` raises `HTTPError` (a `RequestException`) exactly
when `400 <= status_code < 600`; this is captured by `isHttpErrorStatus`.
The sealed-box primitive of PyNaCl is external to the repository and is passed
in as an explicit function argument `seal : key bytes → message bytes →
ciphertext bytes`; base64 and UTF-8 are modelled concretely below.
-/

namespace GhSecrets

/-- Predicate capturing that `requests.Response.raise_for_status` raises `HTTPError` exactly when the
status code is in `[400, 600)`. -/
def isHttpErrorStatus (s : Nat) : Bool := 400 ≤ s && s < 600

/-- Outcome of the GET to `{base_url}/actions/secrets/public-key` inside
`get_public_key`: either a transport-level `RequestException` with no
response, or a response with a status code and the JSON body fields
`key` and `key_id` that the code reads on success. -/
inductive FetchOutcome where
  | transportError : FetchOutcome
  | response (status : Nat) (key : String) (keyId : String) : FetchOutcome
deriving DecidableEq

/-- The two kinds of exception that can escape `get_public_key`:
the plain `Exception("Cannot access repository secrets")` raised on a 404
(the "secrets store inaccessible" condition), and a
`requests.exceptions.RequestException` (transport failure, or the
`HTTPError` re-raised after `raise_for_status`). -/
inductive SecretsError where
  | storeInaccessible (msg : String) : SecretsError
  | networkError : SecretsError
deriving DecidableEq

/-- Model of `GitHubSecretsManager.get_public_key`.  On a 404 response it raises a
plain `Exception` ("Cannot access repository secrets"); `raise_for_status`
failures and transport failures are caught by the
`except requests.exceptions.RequestException` clause, printed, and re-raised
unchanged; on success it returns `(data["key"], data["key_id"])`. -/
def get_public_key : FetchOutcome → Except SecretsError (String × String)
  | .transportError => .error .networkError
  | .response s k kid =>
    if s = 404 then .error (.storeInaccessible "Cannot access repository secrets")
    else if isHttpErrorStatus s then .error .networkError
    else .ok (k, kid)

/-! ## Base64 and UTF-8, as used by `encrypt_secret` -/

/-- The standard base64 alphabet used by Python's `base64` module. -/
def b64alphabet : List Char :=
  "ABCDEFGHIJKLMNOPQRSTUVWXYZabcdefghijklmnopqrstuvwxyz0123456789+/".toList

/-- Position of a character in a list, if present. -/
def posOf : List Char → Char → Option Nat
  | [], _ => none
  | a :: rest, c => if a = c then some 0 else (posOf rest c).map (· + 1)

/-- The sextet encoded by a base64 alphabet character, if any. -/
def b64charVal (c : Char) : Option Nat := posOf b64alphabet c

/-- The base64 alphabet character for a sextet. -/
def b64charOf (n : Nat) : Char := b64alphabet.getD n 'A'

/-- Python `base64.b64encode` on a byte list (bytes as `Nat < 256`). -/
def b64encode : List Nat → List Char
  | b1 :: b2 :: b3 :: rest =>
    let n := b1 * 65536 + b2 * 256 + b3
    b64charOf (n / 262144 % 64) :: b64charOf (n / 4096 % 64) ::
      b64charOf (n / 64 % 64) :: b64charOf (n % 64) :: b64encode rest
  | [b1, b2] =>
    [b64charOf (b1 / 4), b64charOf (b1 % 4 * 16 + b2 / 16), b64charOf (b2 % 16 * 4), '=']
  | [b1] =>
    [b64charOf (b1 / 4), b64charOf (b1 % 4 * 16), '=', '=']
  | [] => []

/-- Decode a list of base64 alphabet characters (padding already removed)
into bytes; `none` models the `binascii.Error` Python raises when the
payload length is invalid (≡ 1 mod 4). -/
def b64decodeCore : List Char → Option (List Nat)
  | [] => some []
  | [_] => none
  | [c1, c2] => do
    let v1 ← b64charVal c1
    let v2 ← b64charVal c2
    pure [v1 * 4 + v2 / 16]
  | [c1, c2, c3] => do
    let v1 ← b64charVal c1
    let v2 ← b64charVal c2
    let v3 ← b64charVal c3
    pure [v1 * 4 + v2 / 16, v2 % 16 * 16 + v3 / 4]
  | c1 :: c2 :: c3 :: c4 :: rest => do
    let v1 ← b64charVal c1
    let v2 ← b64charVal c2
    let v3 ← b64charVal c3
    let v4 ← b64charVal c4
    let tl ← b64decodeCore rest
    pure ((v1 * 4 + v2 / 16) :: (v2 % 16 * 16 + v3 / 4) :: (v3 % 4 * 64 + v4) :: tl)

/-- Python `base64.b64decode` on well-formed input: non-alphabet characters
(including the `=` padding) are discarded, then sextets are packed into
bytes; `none` where Python raises `binascii.Error`. -/
def b64decode (cs : List Char) : Option (List Nat) :=
  b64decodeCore (cs.filter (fun c => (b64charVal c).isSome))

/-- UTF-8 encoding of one scalar value (Python `str.encode("utf-8")`,
per character). -/
def utf8Char (c : Char) : List Nat :=
  let n := c.toNat
  if n < 128 then [n]
  else if n < 2048 then [192 + n / 64, 128 + n % 64]
  else if n < 65536 then [224 + n / 4096, 128 + n / 64 % 64, 128 + n % 64]
  else [240 + n / 262144, 128 + n / 4096 % 64, 128 + n / 64 % 64, 128 + n % 64]

/-- Python `str.encode("utf-8")` as a byte list. -/
def utf8Bytes (s : String) : List Nat :=
  s.toList.foldr (fun c acc => utf8Char c ++ acc) []

/-- Model of `GitHubSecretsManager.encrypt_secret`: base64-decode the repository
public key, seal the UTF-8 bytes of the secret value against it, and
base64-encode the ciphertext.  The sealed-box primitive
(`nacl.public.SealedBox(...).encrypt`) is external and passed in as `seal`.
`none` models the exception raised when the key is not valid base64. -/
def encrypt_secret (sealFn : List Nat → List Nat → List Nat)
    (publicKey : String) (secretValue : String) : Option String :=
  (b64decode publicKey.toList).map
    (fun keyBytes => String.mk (b64encode (sealFn keyBytes (utf8Bytes secretValue))))

/-! ## `set_secret` -/

/-- Outcome of the PUT to `{base_url}/actions/secrets/{name}`. -/
inductive PutOutcome where
  | transportError : PutOutcome
  | response (status : Nat) : PutOutcome
deriving DecidableEq

/-- The responses the remote end gives to the two HTTP calls a single
`set_secret` call can make. -/
structure World where
  fetch : FetchOutcome
  put : PutOutcome
deriving DecidableEq

/-- An HTTP request issued by `set_secret`, in order: the GET of the
public key, and the PUT of the secret with the JSON body fields
`encrypted_value` and `key_id` that the code sends. -/
inductive Request where
  | getPublicKey : Request
  | putSecret (name : String) (encryptedValue : String) (keyId : String) : Request
deriving DecidableEq

/-- Model of `GitHubSecretsManager.set_secret`: fetch the public key, encrypt the
value, PUT `{encrypted_value, key_id}`; returns `False` on a 404 PUT
response, and the `except Exception` clause turns every raised exception
(key-fetch failure, encryption failure, PUT transport failure,
`raise_for_status` on the PUT) into `False`.  Returns the boolean result
together with the list of HTTP requests issued by the call. -/
def set_secret (sealFn : List Nat → List Nat → List Nat) (w : World)
    (name value : String) : Bool × List Request :=
  match get_public_key w.fetch with
  | .error _ => (false, [.getPublicKey])
  | .ok (pk, kid) =>
    match encrypt_secret sealFn pk value with
    | none => (false, [.getPublicKey])
    | some ev =>
      match w.put with
      | .transportError => (false, [.getPublicKey, .putSecret name ev kid])
      | .response s =>
        if s = 404 then (false, [.getPublicKey, .putSecret name ev kid])
        else if isHttpErrorStatus s then (false, [.getPublicKey, .putSecret name ev kid])
        else (true, [.getPublicKey, .putSecret name ev kid])

/-! ## `list_secrets` -/

/-- One element of the `secrets` array in the list-endpoint response body.
The remote API returns metadata fields alongside the name but never a
value; the code reads only `secret["name"]`. -/
structure SecretObj where
  name : String
  created_at : String
  updated_at : String
deriving DecidableEq

/-- Outcome of the GET to `{base_url}/actions/secrets`. -/
inductive ListOutcome where
  | transportError : ListOutcome
  | response (status : Nat) (secrets : List SecretObj) : ListOutcome
deriving DecidableEq

/-- An exception escaping `list_secrets`: a transport failure or the
`HTTPError` from `raise_for_status`; the method has no try/except, so both
propagate to the caller. -/
inductive HttpFailure where
  | transport : HttpFailure
  | httpStatus (s : Nat) : HttpFailure
deriving DecidableEq

/-- Model of `GitHubSecretsManager.list_secrets`: `raise_for_status`, then
`[secret["name"] for secret in response.json()["secrets"]]`. -/
def list_secrets : ListOutcome → Except HttpFailure (List String)
  | .transportError => .error .transport
  | .response s secrets =>
    if isHttpErrorStatus s then .error (.httpStatus s)
    else .ok (secrets.map (fun x => x.name))

/-! ## `parse_env_file` (set_gh_secrets.py)

Strings are handled as `List Char` here so that the character-level
operations of the Python code (`str.strip`, the regular expression
`^export\s+([A-Z_]+)=(.*)$`, quote stripping, `startswith`) can be mirrored
directly.  Dictionaries are association lists with Python's insertion-order
update semantics (`dictInsert`).  The process environment
(`os.environ.get`) is a parameter. -/

/-- The ASCII whitespace stripped by Python's `str.strip()` and matched by
the regex class `\s`. -/
def isPyWs (c : Char) : Bool :=
  c = ' ' || c = '\t' || c = '\n' || c = '\r' || c = '\x0b' || c = '\x0c'

/-- Python `str.strip()`. -/
def pyStrip (cs : List Char) : List Char :=
  ((cs.dropWhile isPyWs).reverse.dropWhile isPyWs).reverse

/-- Split file contents into lines at newline characters (the lines the
Python `for line in f` loop sees, up to the trailing newline which
`str.strip()` removes anyway). -/
def splitLines : List Char → List (List Char)
  | [] => [[]]
  | c :: rest =>
    if c = '\n' then [] :: splitLines rest
    else
      match splitLines rest with
      | [] => [[c]]
      | l :: ls => (c :: l) :: ls

/-- A character of the regex class `[A-Z_]`. -/
def isEnvNameChar (c : Char) : Bool := ('A' ≤ c && c ≤ 'Z') || c = '_'

/-- Model of `re.match(r'^export\s+([A-Z_]+)=(.*)$', line)`: the literal `export`,
at least one whitespace character, a nonempty run of `[A-Z_]` (the name),
`=`, and the rest of the line (the raw value).  The character classes
`\s` and `[A-Z_]` are disjoint and neither contains `=`, so the greedy
regex match is exactly this sequential scan. -/
def matchExport (cs : List Char) : Option (List Char × List Char) :=
  match cs with
  | 'e' :: 'x' :: 'p' :: 'o' :: 'r' :: 't' :: rest =>
    match rest with
    | [] => none
    | c :: rest2 =>
      if isPyWs c then
        let afterWs := rest2.dropWhile isPyWs
        let name := afterWs.takeWhile isEnvNameChar
        let after := afterWs.dropWhile isEnvNameChar
        if name = [] then none
        else
          match after with
          | '=' :: value => some (name, value)
          | _ => none
      else none
  | _ => none

/-- Python slicing `var_value[1:-1]` applied when the value starts and ends with `"` or
starts and ends with `'` (Python's check is true for the 1-character
strings `"` and `'` as well, where slicing yields the empty string). -/
def stripQuotes (v : List Char) : List Char :=
  if (v.head? = some '"' && v.getLast? = some '"')
      || (v.head? = some (Char.ofNat 39) && v.getLast? = some (Char.ofNat 39)) then
    (v.drop 1).dropLast
  else v

/-- Python `dict` assignment `d[k] = v`: update in place if the key is
present (keeping its position), otherwise append. -/
def dictInsert {α β : Type} [DecidableEq α] (d : List (α × β)) (k : α) (v : β) :
    List (α × β) :=
  if d.any (fun p => decide (p.1 = k)) then
    d.map (fun p => if p.1 = k then (k, v) else p)
  else d ++ [(k, v)]

/-- First-match lookup in an association list (`k in d` / `d[k]`). -/
def lookupD {α β : Type} [DecidableEq α] : List (α × β) → α → Option β
  | [], _ => none
  | (k2, v) :: rest, k => if k2 = k then some v else lookupD rest k

/-- First pass of `parse_env_file`: strip each line, skip blank lines and
comments, and collect the (quote-stripped, re-stripped) values of matching
`export` lines into the `simple_vars` dictionary. -/
def firstPass (lines : List (List Char)) : List (List Char × List Char) :=
  lines.foldl
    (fun sv line =>
      let l := pyStrip line
      if l = [] then sv
      else if l.head? = some '#' then sv
      else
        match matchExport l with
        | none => sv
        | some (n, vRaw) => dictInsert sv n (stripQuotes (pyStrip vRaw)))
    []

/-- The second-pass body for one `simple_vars` entry: a value starting with
`$` is a reference; it resolves to the referenced entry's raw `simple_vars`
value if present, else to a nonempty process-environment value
(`if env_value:` — an empty environment value counts as absent), else the
literal unresolved text is kept. -/
def resolveVal (sv : List (List Char × List Char))
    (env : List Char → Option (List Char)) (v : List Char) : List Char :=
  if v.head? = some '$' then
    let ref := v.drop 1
    match lookupD sv ref with
    | some rv => rv
    | none =>
      match env ref with
      | some ev => if ev = [] then v else ev
      | none => v
  else v

/-- The warning the second pass prints for one entry, when its reference
resolves neither in `simple_vars` nor to a nonempty environment value:
the pair (referenced name, variable name) of
`Unresolved variable reference $ref in var`. -/
def warnOf (sv : List (List Char × List Char))
    (env : List Char → Option (List Char)) (p : List Char × List Char) :
    Option (List Char × List Char) :=
  if p.2.head? = some '$' then
    let ref := p.2.drop 1
    match lookupD sv ref with
    | some _ => none
    | none =>
      match env ref with
      | some ev => if ev = [] then some (ref, p.1) else none
      | none => some (ref, p.1)
  else none

/-- Model of `parse_env_file`: the two-pass parser.  Returns the `variables`
dictionary it builds and the list of unresolved-reference warnings it
prints. -/
def parse_env_file (env : List Char → Option (List Char)) (content : List Char) :
    List (List Char × List Char) × List (List Char × List Char) :=
  let sv := firstPass (splitLines content)
  (sv.foldl (fun vars p => dictInsert vars p.1 (resolveVal sv env p.2)) [],
   sv.foldl (fun ws p => ws ++ (warnOf sv env p).toList) [])

/-! ## The batch loops of the two CLI tools -/

/-- The sync loop of `set_gh_secrets.py::main`: for each parsed variable,
an empty value is skipped with a warning (`if not value`) and does not
reach `set_secret`; otherwise `set_secret` is called and counted on
success.  `setRes name value` is the boolean `set_secret` returns.
Returns `success_count` together with the ordered list of
`(name, value)` arguments actually passed to `set_secret`. -/
def syncLoop (setRes : String → String → Bool) :
    List (String × String) → Nat × List (String × String)
  | [] => (0, [])
  | (n, v) :: rest =>
    if v = "" then syncLoop setRes rest
    else
      let r := syncLoop setRes rest
      ((if setRes n v then 1 else 0) + r.1, (n, v) :: r.2)

/-- The upload loop of `set_cert_secrets.py::main`: every certificate entry
is passed to `set_secret`, with no filtering, and counted on success. -/
def uploadLoop (setRes : String → String → Bool) :
    List (String × String) → Nat × List (String × String)
  | [] => (0, [])
  | (n, v) :: rest =>
    let r := uploadLoop setRes rest
    ((if setRes n v then 1 else 0) + r.1, (n, v) :: r.2)

/-- Model of `set_cert_secrets.py::read_certificate_files`: for each of the two
fixed secret-name/file-name pairs, a missing or unreadable file is skipped
with a message; a readable file contributes its stripped contents
(`f.read().strip()`) — including the empty string for a blank file.
`readFile` maps a file name to its contents, `none` for missing or
unreadable. -/
def read_certificate_files (readFile : String → Option String) :
    List (String × String) :=
  [("LETSENCRYPT_CERT", "letsencrypt-server.crt"),
   ("LETSENCRYPT_KEY", "letsencrypt-server.key")].foldl
    (fun acc p =>
      match readFile p.2 with
      | none => acc
      | some content => acc ++ [(p.1, String.mk (pyStrip content.toList))])
    []

/-! ## Worlds for concrete batch scenarios -/

/-- Per-secret remote behaviour for the three-secret batch scenario: the
key fetch always succeeds, the PUT of secret `B` fails with HTTP 500, the
other PUTs succeed with HTTP 201. -/
def scenarioWorld (n : String) : World :=
  { fetch := .response 200 "AAAA" "kid1",
    put := if n = "B" then .response 500 else .response 201 }

/-- The boolean `set_secret` returns in the three-secret batch scenario. -/
def scenarioSetRes (n v : String) : Bool :=
  (set_secret (fun _ _ => []) (scenarioWorld n) n v).1

/-! ## Helper lemmas -/

/-- Keys of an association list, in order. -/
def keysOf {α β : Type} (d : List (α × β)) : List α := d.map Prod.fst

theorem lookupD_eq_some_mem {α β : Type} [DecidableEq α]
    {d : List (α × β)} {k : α} {v : β} (h : lookupD d k = some v) : (k, v) ∈ d := by
  induction d with
  | nil => simp [lookupD] at h
  | cons p rest ih =>
    obtain ⟨k2, v2⟩ := p
    by_cases hk : k2 = k
    · subst hk
      simp [lookupD] at h
      simp [h]
    · simp [lookupD, hk] at h
      exact List.mem_cons_of_mem _ (ih h)

theorem dictInsert_of_not_mem {α β : Type} [DecidableEq α]
    {d : List (α × β)} {k : α} (v : β) (h : k ∉ keysOf d) :
    dictInsert d k v = d ++ [(k, v)] := by
  unfold dictInsert
  have hany : d.any (fun p => decide (p.1 = k)) = false := by
    simp only [List.any_eq_false, decide_eq_true_eq]
    intro p hp hpk
    apply h
    simp only [keysOf, List.mem_map]
    exact ⟨p, hp, hpk⟩
  simp [hany]

theorem keysOf_dictInsert {α β : Type} [DecidableEq α]
    (d : List (α × β)) (k : α) (v : β) :
    keysOf (dictInsert d k v) = if k ∈ keysOf d then keysOf d else keysOf d ++ [k] := by
  by_cases hmem : k ∈ keysOf d
  · have hany : d.any (fun p => decide (p.1 = k)) = true := by
      simp only [keysOf, List.mem_map] at hmem
      obtain ⟨p, hp, hpk⟩ := hmem
      simp only [List.any_eq_true, decide_eq_true_eq]
      exact ⟨p, hp, hpk⟩
    unfold dictInsert
    simp only [hany, if_true, hmem, if_true]
    simp only [keysOf, List.map_map]
    apply List.map_congr_left
    intro p _
    by_cases hpk : p.1 = k <;> simp [Function.comp, hpk]
  · rw [dictInsert_of_not_mem v hmem]
    have hmem2 : k ∉ List.map Prod.fst d := hmem
    simp [keysOf, hmem2]

theorem nodup_keysOf_dictInsert {α β : Type} [DecidableEq α]
    {d : List (α × β)} (k : α) (v : β) (h : (keysOf d).Nodup) :
    (keysOf (dictInsert d k v)).Nodup := by
  rw [keysOf_dictInsert]
  by_cases hmem : k ∈ keysOf d
  · simpa [hmem] using h
  · simp only [hmem, if_false]
    apply List.Nodup.append h (List.nodup_singleton k)
    intro x hx hxk
    simp only [List.mem_singleton] at hxk
    subst hxk
    exact hmem hx

theorem nodup_keysOf_firstPass (lines : List (List Char)) :
    (keysOf (firstPass lines)).Nodup := by
  unfold firstPass
  suffices h : ∀ (acc : List (List Char × List Char)), (keysOf acc).Nodup →
      (keysOf (lines.foldl
        (fun sv line =>
          let l := pyStrip line
          if l = [] then sv
          else if l.head? = some '#' then sv
          else
            match matchExport l with
            | none => sv
            | some (n, vRaw) => dictInsert sv n (stripQuotes (pyStrip vRaw)))
        acc)).Nodup by
    exact h [] (by simp [keysOf])
  induction lines with
  | nil => intro acc hacc; simpa using hacc
  | cons line rest ih =>
    intro acc hacc
    simp only [List.foldl_cons]
    apply ih
    dsimp only
    split
    · exact hacc
    · split
      · exact hacc
      · split
        · exact hacc
        · exact nodup_keysOf_dictInsert _ _ hacc

theorem foldl_dictInsert_eq_append {α β : Type} [DecidableEq α]
    (g : α → β → β) :
    ∀ (l acc : List (α × β)), (∀ p ∈ l, p.1 ∉ keysOf acc) → (keysOf l).Nodup →
      l.foldl (fun vars p => dictInsert vars p.1 (g p.1 p.2)) acc
        = acc ++ l.map (fun p => (p.1, g p.1 p.2)) := by
  intro l
  induction l with
  | nil => intro acc _ _; simp
  | cons p rest ih =>
    intro acc hdisj hnd
    have hnd' : (p.1 :: keysOf rest).Nodup := hnd
    have hdisj2 : ∀ q ∈ rest, q.1 ∉ keysOf (acc ++ [(p.1, g p.1 p.2)]) := by
      intro q hq hmemq
      have hsplit : q.1 ∈ keysOf acc ∨ q.1 = p.1 := by
        have hq2 : q.1 ∈ keysOf acc ++ [p.1] := by simpa [keysOf] using hmemq
        rcases List.mem_append.mp hq2 with h1 | h2
        · exact Or.inl h1
        · exact Or.inr (List.mem_singleton.mp h2)
      rcases hsplit with h1 | h2
      · exact hdisj q (List.mem_cons_of_mem _ hq) h1
      · have hq1 : q.1 ∈ keysOf rest := List.mem_map_of_mem Prod.fst hq
        exact (List.nodup_cons.mp hnd').1 (h2 ▸ hq1)
    simp only [List.foldl_cons]
    rw [dictInsert_of_not_mem _ (hdisj p (List.mem_cons_self p rest))]
    rw [ih (acc ++ [(p.1, g p.1 p.2)]) hdisj2 (List.Nodup.of_cons hnd')]
    simp

theorem lookupD_map_value {α β γ : Type} [DecidableEq α]
    (g : α → β → γ) (l : List (α × β)) (k : α) :
    lookupD (l.map (fun p => (p.1, g p.1 p.2))) k = (lookupD l k).map (g k) := by
  induction l with
  | nil => simp [lookupD]
  | cons p rest ih =>
    by_cases hk : p.1 = k
    · subst hk; simp [lookupD]
    · simp [lookupD, hk, ih]

/-- The `variables` dictionary returned by `parse_env_file` is the
`simple_vars` dictionary with every value resolved by `resolveVal` (the
second-pass loop assigns each `simple_vars` key exactly once, since dict
keys are unique). -/
theorem parse_env_file_vars_eq (env : List Char → Option (List Char))
    (content : List Char) :
    (parse_env_file env content).1
      = (firstPass (splitLines content)).map
          (fun p => (p.1, resolveVal (firstPass (splitLines content)) env p.2)) := by
  unfold parse_env_file
  exact foldl_dictInsert_eq_append
    (fun _ v => resolveVal (firstPass (splitLines content)) env v)
    (firstPass (splitLines content)) [] (by intro p _; simp [keysOf])
    (nodup_keysOf_firstPass _)

theorem mem_warn_foldl_acc (sv : List (List Char × List Char))
    (env : List Char → Option (List Char)) :
    ∀ (l : List (List Char × List Char)) (acc : List (List Char × List Char))
      (w : List Char × List Char), w ∈ acc →
      w ∈ l.foldl (fun ws p => ws ++ (warnOf sv env p).toList) acc := by
  intro l
  induction l with
  | nil => intro acc w hw; simpa using hw
  | cons p rest ih =>
    intro acc w hw
    simp only [List.foldl_cons]
    exact ih _ w (List.mem_append_left _ hw)

theorem mem_warn_foldl (sv : List (List Char × List Char))
    (env : List Char → Option (List Char)) :
    ∀ (l : List (List Char × List Char)) (acc : List (List Char × List Char))
      (p : List Char × List Char) (w : List Char × List Char),
      p ∈ l → warnOf sv env p = some w →
      w ∈ l.foldl (fun ws q => ws ++ (warnOf sv env q).toList) acc := by
  intro l
  induction l with
  | nil => intro acc p w hp; simp at hp
  | cons q rest ih =>
    intro acc p w hp hw
    simp only [List.foldl_cons]
    rcases List.mem_cons.mp hp with hpq | hpr
    · subst hpq
      apply mem_warn_foldl_acc
      simp [hw]
    · exact ih _ p w hpr hw

/-- Counting and filtering facts for the sync loop of `set_gh_secrets.py`. -/
theorem syncLoop_calls_nonempty (f : String → String → Bool) :
    ∀ (vars : List (String × String)) (p : String × String),
      p ∈ (syncLoop f vars).2 → p.2 ≠ "" := by
  intro vars
  induction vars with
  | nil => intro p hp; simp [syncLoop] at hp
  | cons q rest ih =>
    intro p hp
    obtain ⟨n, v⟩ := q
    by_cases hv : v = ""
    · rw [show syncLoop f ((n, v) :: rest) = syncLoop f rest by simp [syncLoop, hv]] at hp
      exact ih p hp
    · rw [show (syncLoop f ((n, v) :: rest)).2 = (n, v) :: (syncLoop f rest).2 by
        simp [syncLoop, hv]] at hp
      rcases List.mem_cons.mp hp with hpq | hpr
      · subst hpq; exact hv
      · exact ih p hpr

theorem syncLoop_calls (f : String → String → Bool) (vars : List (String × String)) :
    (syncLoop f vars).2 = vars.filter (fun p => !(p.2 == "")) := by
  induction vars with
  | nil => simp [syncLoop]
  | cons q rest ih =>
    obtain ⟨n, v⟩ := q
    by_cases hv : v = "" <;> simp [syncLoop, hv, List.filter_cons, ih]

theorem syncLoop_count (f : String → String → Bool) (vars : List (String × String)) :
    (syncLoop f vars).1 = ((syncLoop f vars).2.filter (fun p => f p.1 p.2)).length := by
  induction vars with
  | nil => simp [syncLoop]
  | cons q rest ih =>
    obtain ⟨n, v⟩ := q
    by_cases hv : v = ""
    · simp [syncLoop, hv, ih]
    · by_cases hf : f n v <;> simp [syncLoop, hv, hf, List.filter_cons, ih] <;> omega

theorem uploadLoop_calls (f : String → String → Bool) (certs : List (String × String)) :
    (uploadLoop f certs).2 = certs := by
  induction certs with
  | nil => simp [uploadLoop]
  | cons q rest ih =>
    obtain ⟨n, v⟩ := q
    simp [uploadLoop, ih]

theorem uploadLoop_count (f : String → String → Bool) (certs : List (String × String)) :
    (uploadLoop f certs).1 = (certs.filter (fun p => f p.1 p.2)).length := by
  induction certs with
  | nil => simp [uploadLoop]
  | cons q rest ih =>
    obtain ⟨n, v⟩ := q
    by_cases hf : f n v <;> simp [uploadLoop, hf, List.filter_cons, ih] <;> omega

theorem lookupD_parse_vars (env : List Char → Option (List Char))
    (content : List Char) (k : List Char) :
    lookupD (parse_env_file env content).1 k
      = (lookupD (firstPass (splitLines content)) k).map
          (resolveVal (firstPass (splitLines content)) env) := by
  rw [parse_env_file_vars_eq]
  exact lookupD_map_value
    (fun _ v => resolveVal (firstPass (splitLines content)) env v) _ k

theorem resolveVal_of_not_dollar (sv : List (List Char × List Char))
    (env : List Char → Option (List Char)) (v : List Char)
    (h : v.head? ≠ some '$') : resolveVal sv env v = v := by
  simp [resolveVal, h]

/-- Every call to `set_secret` begins by issuing a fresh GET of the public
key; the manager object stores no key material between calls. -/
theorem set_secret_trace_head (sealFn : List Nat → List Nat → List Nat)
    (w : World) (n v : String) :
    (set_secret sealFn w n v).2.head? = some .getPublicKey := by
  unfold set_secret
  cases hk : get_public_key w.fetch with
  | error e => simp
  | ok p =>
    obtain ⟨pk, kid⟩ := p
    cases he : encrypt_secret sealFn pk v with
    | none => simp [he]
    | some ev =>
      cases hp : w.put with
      | transportError => simp [he, hp]
      | response s =>
        by_cases h404 : s = 404
        · simp [he, hp, h404]
        · by_cases herr : isHttpErrorStatus s <;> simp [he, hp, h404, herr]

/-! ## The claims -/

/-- C6: for an input file containing the line `export FOO="bar"` followed
by `export BAZ=$FOO`, `parse_env_file` returns the map binding `FOO` to
`bar` (quotes stripped) and `BAZ` to `bar` (the reference resolved from the
earlier assignment), with no warnings. -/
theorem parse_env_file_quotes_and_reference :
    parse_env_file (fun _ => none)
        ("export FOO=\"bar\"\nexport BAZ=$FOO").toList
      = ([("FOO".toList, "bar".toList), ("BAZ".toList, "bar".toList)], []) := by
  decide

/-- C7: if the file assigns a variable `n` the value `$ref` and `ref` is
neither assigned in the file nor present in the process environment,
`parse_env_file` binds `n` to the literal unresolved text `$ref` (dollar
sign included) and emits the unresolved-reference warning, instead of
failing. -/
theorem parse_env_file_unresolved_reference
    (env : List Char → Option (List Char)) (content : List Char)
    (n ref : List Char)
    (h1 : lookupD (firstPass (splitLines content)) n = some ('$' :: ref))
    (h2 : lookupD (firstPass (splitLines content)) ref = none)
    (h3 : env ref = none) :
    lookupD (parse_env_file env content).1 n = some ('$' :: ref)
    ∧ (ref, n) ∈ (parse_env_file env content).2 := by
  constructor
  · rw [lookupD_parse_vars, h1]
    simp [resolveVal, h2, h3]
  · have hmem : (n, '$' :: ref) ∈ firstPass (splitLines content) :=
      lookupD_eq_some_mem h1
    have hw : warnOf (firstPass (splitLines content)) env (n, '$' :: ref)
        = some (ref, n) := by
      simp [warnOf, h2, h3]
    unfold parse_env_file
    exact mem_warn_foldl _ env _ [] _ _ hmem hw

/-- Witness for C7: the one-line file `export BAZ=$UNDEFINED` with an empty
process environment. -/
theorem parse_env_file_unresolved_reference_witness :
    lookupD (parse_env_file (fun _ => none)
        ("export BAZ=$UNDEFINED").toList).1 ("BAZ".toList)
      = some ('$' :: "UNDEFINED".toList)
    ∧ ("UNDEFINED".toList, "BAZ".toList)
        ∈ (parse_env_file (fun _ => none) ("export BAZ=$UNDEFINED").toList).2 :=
  parse_env_file_unresolved_reference (fun _ => none) _ _ _
    (by decide) (by decide) rfl

/-- C10: reference resolution in `parse_env_file` is single-level and
whole-value only.  If the first pass binds `n` to `$ref` and binds `ref`
to the raw value `rv`, the result binds `n` to `rv` itself — the raw,
pre-resolution text, even when `rv` is again of the form `$x`; and a value
that does not start with `$` is never treated as a reference and survives
unchanged. -/
theorem parse_env_file_single_level_whole_value
    (env : List Char → Option (List Char)) (content : List Char)
    (n ref rv m v : List Char)
    (h1 : lookupD (firstPass (splitLines content)) n = some ('$' :: ref))
    (h2 : lookupD (firstPass (splitLines content)) ref = some rv)
    (h3 : lookupD (firstPass (splitLines content)) m = some v)
    (h4 : v.head? ≠ some '$') :
    lookupD (parse_env_file env content).1 n = some rv
    ∧ lookupD (parse_env_file env content).1 m = some v := by
  constructor
  · rw [lookupD_parse_vars, h1]
    simp [resolveVal, h2]
  · rw [lookupD_parse_vars, h3]
    simp [resolveVal_of_not_dollar _ env v h4]

/-- Witness for C10: in the file `export A=$B`, `export B=$C`,
`export C=val`, `export D=x$E`, the variable `A` resolves to the literal
string `$C` (not to `val`, the value of `C`), and `D` keeps the literal
value `x$E` because the `$` is not at the start. -/
theorem parse_env_file_single_level_whole_value_witness :
    lookupD (parse_env_file (fun _ => none)
        ("export A=$B\nexport B=$C\nexport C=val\nexport D=x$E").toList).1
        ("A".toList)
      = some ("$C".toList)
    ∧ lookupD (parse_env_file (fun _ => none)
        ("export A=$B\nexport B=$C\nexport C=val\nexport D=x$E").toList).1
        ("D".toList)
      = some ("x$E".toList) :=
  parse_env_file_single_level_whole_value (fun _ => none)
    ("export A=$B\nexport B=$C\nexport C=val\nexport D=x$E").toList
    ("A".toList) ("B".toList) ("$C".toList) ("D".toList) ("x$E".toList)
    (by decide) (by decide) (by decide) (by decide)

/-- C1 counterexample: `set_secret` returns `true` on a PUT response with
the non-2xx status 304 (`raise_for_status` only raises for 4xx/5xx), so
"returns true exactly when the PUT yields a 2xx response" is false of the
code. -/
theorem set_secret_true_on_non2xx_304 :
    (set_secret (fun _ _ => [])
        { fetch := .response 200 "AAAA" "kid1", put := .response 304 }
        "N" "v").1 = true
    ∧ ¬ (200 ≤ 304 ∧ 304 < 300) := by
  decide

/-- C1 (amended): `set_secret` returns a boolean and never raises across
the public boundary; it returns `true` exactly when the key fetch and the
encryption succeed and the PUT yields a response whose status is not an
HTTP error status (400–599) — in particular for every 2xx — and returns
`false` for every other outcome: any 4xx/5xx PUT status, a PUT transport
failure, and any exception raised during key fetch or encryption. -/
theorem set_secret_true_iff_no_http_error
    (sealFn : List Nat → List Nat → List Nat) (w : World) (n v : String) :
    (set_secret sealFn w n v).1 = true ↔
      ∃ pk kid ev s, get_public_key w.fetch = .ok (pk, kid)
        ∧ encrypt_secret sealFn pk v = some ev
        ∧ w.put = .response s
        ∧ isHttpErrorStatus s = false := by
  unfold set_secret
  cases hk : get_public_key w.fetch with
  | error e => simp [hk]
  | ok p =>
    obtain ⟨pk, kid⟩ := p
    cases he : encrypt_secret sealFn pk v with
    | none => simp [he]
    | some ev =>
      cases hp : w.put with
      | transportError => simp [he, hp]
      | response s =>
        by_cases h404 : s = 404
        · subst h404
          simp [he, hp, isHttpErrorStatus]
        · by_cases herr : isHttpErrorStatus s
          · simp [he, hp, h404, herr]
          · simp [he, hp, h404, herr, eq_self_iff_true]

/-- Witness for C1: a successful fetch, encryption and 201 PUT makes
`set_secret` return `true`. -/
theorem set_secret_true_iff_no_http_error_witness :
    (set_secret (fun _ _ => [])
        { fetch := .response 200 "AAAA" "kid1", put := .response 201 }
        "N" "v").1 = true :=
  (set_secret_true_iff_no_http_error (fun _ _ => [])
      { fetch := .response 200 "AAAA" "kid1", put := .response 201 } "N" "v").2
    ⟨"AAAA", "kid1", "", 201, rfl, rfl, rfl, by decide⟩

/-- C2: `get_public_key` signals the "secrets store inaccessible"
condition (the plain `Exception`, a distinct error constructor) exactly
when the public-key endpoint returns HTTP 404; every other HTTP failure
and every transport failure signals the generic network-error condition,
and the two kinds are distinguishable. -/
theorem get_public_key_error_kinds (o : FetchOutcome) :
    ((∃ m, get_public_key o = .error (.storeInaccessible m))
        ↔ ∃ k kid, o = .response 404 k kid)
    ∧ (∀ s k kid, o = .response s k kid → s ≠ 404 → isHttpErrorStatus s = true →
        get_public_key o = .error .networkError)
    ∧ (o = .transportError → get_public_key o = .error .networkError)
    ∧ ∀ m, SecretsError.storeInaccessible m ≠ SecretsError.networkError := by
  refine ⟨?_, ?_, ?_, ?_⟩
  · cases o with
    | transportError => simp [get_public_key]
    | response s k kid =>
      by_cases h404 : s = 404
      · subst h404
        simp [get_public_key]
      · constructor
        · rintro ⟨m, hm⟩
          exfalso
          by_cases herr : isHttpErrorStatus s <;>
            simp [get_public_key, h404, herr] at hm
        · rintro ⟨k2, kid2, he⟩
          injection he with h1 _ _
          exact absurd h1 h404
  · rintro s k kid rfl h404 herr
    simp [get_public_key, h404, herr]
  · rintro rfl
    rfl
  · intro m h
    exact SecretsError.noConfusion h

/-- Witness for C2: a 404 response from the public-key endpoint yields the
store-inaccessible condition. -/
theorem get_public_key_error_kinds_witness :
    ∃ m, get_public_key (.response 404 "k" "kid")
      = .error (.storeInaccessible m) :=
  (get_public_key_error_kinds (.response 404 "k" "kid")).1.2 ⟨"k", "kid", rfl⟩

/-- C3: when the key fetch inside a `set_secret` call returns
`(pk, key_id)` and encryption succeeds, the PUT issued by that same call
carries exactly that `key_id` and an `encrypted_value` that is the base64
encoding of the sealed-box ciphertext produced with that same fetched key;
and every `set_secret` call begins with a fresh key fetch (no key material
is cached across calls — the manager object stores none). -/
theorem set_secret_key_and_ciphertext_same_fetch
    (sealFn : List Nat → List Nat → List Nat) (w : World) (n v pk kid ev : String)
    (hk : get_public_key w.fetch = .ok (pk, kid))
    (he : encrypt_secret sealFn pk v = some ev) :
    (set_secret sealFn w n v).2 = [.getPublicKey, .putSecret n ev kid]
    ∧ (∃ keyBytes, b64decode pk.toList = some keyBytes
        ∧ ev = String.mk (b64encode (sealFn keyBytes (utf8Bytes v))))
    ∧ ∀ (w2 : World) (n2 v2 : String),
        (set_secret sealFn w2 n2 v2).2.head? = some .getPublicKey := by
  refine ⟨?_, ?_, fun w2 n2 v2 => set_secret_trace_head sealFn w2 n2 v2⟩
  · unfold set_secret
    rw [hk]
    cases hp : w.put with
    | transportError => simp [he, hp]
    | response s =>
      by_cases h404 : s = 404
      · simp [he, hp, h404]
      · by_cases herr : isHttpErrorStatus s <;> simp [he, hp, h404, herr]
  · unfold encrypt_secret at he
    cases hd : b64decode pk.toList with
    | none => rw [hd] at he; simp at he
    | some kb =>
      rw [hd] at he
      simp at he
      exact ⟨kb, rfl, he.symm⟩

/-- Witness for C3, at a concrete world with key `AAAA`, key id `kid1` and
a constant sealed-box function. -/
theorem set_secret_key_and_ciphertext_same_fetch_witness :
    (set_secret (fun _ _ => [])
        { fetch := .response 200 "AAAA" "kid1", put := .response 201 }
        "N" "v").2 = [.getPublicKey, .putSecret "N" "" "kid1"]
    ∧ (∃ keyBytes, b64decode ("AAAA").toList = some keyBytes
        ∧ "" = String.mk (b64encode
            ((fun _ _ => ([] : List Nat)) keyBytes (utf8Bytes "v"))))
    ∧ ∀ (w2 : World) (n2 v2 : String),
        (set_secret (fun _ _ => []) w2 n2 v2).2.head? = some .getPublicKey :=
  set_secret_key_and_ciphertext_same_fetch (fun _ _ => [])
    { fetch := .response 200 "AAAA" "kid1", put := .response 201 }
    "N" "v" "AAAA" "kid1" "" rfl rfl

/-- C9: if the public-key fetch inside `set_secret` raises, the call
returns `false` and issues no PUT request — the only request in its trace
is the key-fetch GET, so the remote store is left untouched. -/
theorem set_secret_no_put_on_key_fetch_failure
    (sealFn : List Nat → List Nat → List Nat) (w : World) (n v : String)
    (e : SecretsError) (h : get_public_key w.fetch = .error e) :
    set_secret sealFn w n v = (false, [.getPublicKey])
    ∧ ∀ (nm ev kid : String),
        Request.putSecret nm ev kid ∉ (set_secret sealFn w n v).2 := by
  have h1 : set_secret sealFn w n v = (false, [.getPublicKey]) := by
    unfold set_secret
    rw [h]
  refine ⟨h1, ?_⟩
  intro nm ev kid hmem
  rw [h1] at hmem
  simp at hmem

/-- Witness for C9: a transport failure during the key fetch. -/
theorem set_secret_no_put_on_key_fetch_failure_witness :
    set_secret (fun _ _ => [])
        { fetch := .transportError, put := .response 201 } "N" "v"
      = (false, [.getPublicKey])
    ∧ ∀ (nm ev kid : String),
        Request.putSecret nm ev kid ∉
          (set_secret (fun _ _ => [])
            { fetch := .transportError, put := .response 201 } "N" "v").2 :=
  set_secret_no_put_on_key_fetch_failure (fun _ _ => [])
    { fetch := .transportError, put := .response 201 } "N" "v"
    .networkError rfl

/-- C4 counterexample: the upload loop of `set_cert_secrets.py` performs no
empty-value filter, so when a certificate file is present but blank,
`set_secret` is called with the empty plaintext — "set_secret is never
called with an empty plaintext by either CLI tool" is false of the code. -/
theorem cert_upload_passes_empty_plaintext :
    ("LETSENCRYPT_CERT", "") ∈
      (uploadLoop
        (fun nm vl => (set_secret (fun _ _ => [])
          { fetch := .response 200 "AAAA" "kid1", put := .response 201 }
          nm vl).1)
        (read_certificate_files
          (fun p => if p = "letsencrypt-server.crt" then some "" else none))).2 := by
  decide

/-- C4 (amended): only `set_gh_secrets.py` filters empty plaintexts — its
sync loop skips every empty-valued entry with a warning before invoking
`set_secret`, so that tool never calls `set_secret` with an empty
plaintext; the upload loop of `set_cert_secrets.py` performs no such
filter and passes every read certificate entry, empty or not, to
`set_secret`. -/
theorem empty_value_filtering_by_tool (f : String → String → Bool)
    (vars certs : List (String × String)) :
    (∀ p ∈ (syncLoop f vars).2, p.2 ≠ "")
    ∧ (uploadLoop f certs).2 = certs :=
  ⟨fun p hp => syncLoop_calls_nonempty f vars p hp, uploadLoop_calls f certs⟩

/-- Witness for C4 (amended): concrete batches through both loops. -/
theorem empty_value_filtering_by_tool_witness :
    ("B", "y").2 ≠ ""
    ∧ (uploadLoop (fun _ _ => true) [("LETSENCRYPT_KEY", "")]).2
        = [("LETSENCRYPT_KEY", "")] := by
  have h := empty_value_filtering_by_tool (fun _ _ => true)
    [("A", ""), ("B", "y")] [("LETSENCRYPT_KEY", "")]
  exact ⟨h.1 ("B", "y") (by decide), h.2⟩

/-- C5: a per-secret failure does not stop a batch.  In both loops the
success count is the number of `set_secret` calls that returned `true`,
and every non-skipped entry is attempted; in the concrete three-secret
scenario where the second PUT returns HTTP 500, all three secrets are
attempted and the tally is 2 successes out of 3 input secrets. -/
theorem batch_continues_and_tallies (f : String → String → Bool)
    (vars certs : List (String × String)) :
    (syncLoop f vars).1
        = ((syncLoop f vars).2.filter (fun p => f p.1 p.2)).length
    ∧ (uploadLoop f certs).1
        = (certs.filter (fun p => f p.1 p.2)).length
    ∧ syncLoop scenarioSetRes [("A", "x"), ("B", "y"), ("C", "z")]
        = (2, [("A", "x"), ("B", "y"), ("C", "z")])
    ∧ (scenarioWorld "B").put = .response 500
    ∧ [("A", "x"), ("B", "y"), ("C", "z")].length = 3 :=
  ⟨syncLoop_count f vars, uploadLoop_count f certs, by decide, rfl, rfl⟩

/-- C8: on a successful response, `list_secrets` returns exactly the
secret names in the order they appear in the response body, with no values
attached; on an HTTP error status or a transport failure it propagates the
error to the caller instead of returning a partial result. -/
theorem list_secrets_names_in_order (s : Nat) (secrets : List SecretObj) :
    (isHttpErrorStatus s = false →
      list_secrets (.response s secrets)
        = .ok (secrets.map (fun x => x.name)))
    ∧ (isHttpErrorStatus s = true →
      list_secrets (.response s secrets) = .error (.httpStatus s))
    ∧ list_secrets .transportError = .error .transport := by
  refine ⟨?_, ?_, rfl⟩
  · intro h
    simp [list_secrets, h]
  · intro h
    simp [list_secrets, h]

/-- Witness for C8: a 200 response with two secret objects yields their
names in response order. -/
theorem list_secrets_names_in_order_witness :
    list_secrets (.response 200
        [⟨"S1", "c1", "u1"⟩, ⟨"S2", "c2", "u2"⟩])
      = .ok ["S1", "S2"] :=
  (list_secrets_names_in_order 200
    [⟨"S1", "c1", "u1"⟩, ⟨"S2", "c2", "u2"⟩]).1 rfl

end GhSecrets
